import Mathlib

/-!
zkmanager: a shallow embedding of `manager.go`

The service registry of `manager.go` keeps a package-level snapshot
`currentServices`, a package-level slice `changedServices`, and a list of
`subscribers`.  The functions below follow the source statement by statement:
Go maps are association lists (with the `nil` map kept apart from an allocated
one), the coordination store is an explicit connection state, and the body of
the endless loop of `watchZookeeper` is one function from state to state.
-/

namespace Zkmanager

-- Data model (`skynet.ServiceInfo`, `skynet.ServiceQuery`, `skynet.ServiceUpdate`)

/-- Modelled from the spec: the network address `(host, port)` of a descriptor
(`skynet.BindAddr`, declared outside this repository). -/
structure BindAddr where
  IPAddress : String
  Port : Nat
  deriving DecidableEq, Repr

/-- Modelled from the spec: the rendering `host:port` of an address
(`skynet.BindAddr.String`, declared outside this repository). -/
def BindAddr.String (a : BindAddr) : String :=
  a.IPAddress ++ ":" ++ Nat.repr a.Port

/-- The descriptor `skynet.ServiceInfo` with the fields of its embedded
`ServiceConfig` that `manager.go` reads. -/
structure ServiceInfo where
  UUID : String
  Name : String
  Region : String
  Version : String
  ServiceAddr : BindAddr
  deriving DecidableEq, Repr

/-- The query `skynet.ServiceQuery`: the three fields the matching loop reads.
The zero value of a field is the empty string. -/
structure ServiceQuery where
  Name : String
  Region : String
  Version : String
  deriving DecidableEq, Repr

/-- The event kinds `skynet.ADD` and `skynet.DELETE`. -/
inductive Event where
  | ADD
  | DELETE
  deriving DecidableEq, Repr

/-- The change record `skynet.ServiceUpdate`. -/
structure ServiceUpdate where
  Service : ServiceInfo
  Event : Event
  deriving DecidableEq, Repr

/-- The `subscriber` struct: a query and the channel updates are sent on (the
channel is identified by a number). -/
structure subscriber where
  query : ServiceQuery
  serviceChannel : Nat
  deriving DecidableEq, Repr

-- Go maps

/-- The entries of an allocated Go map with string keys.  Iteration order is
unspecified in Go; the order of the list stands for the order one `range`
happens to use. -/
abbrev Entries (V : Type) := List (String × V)

/-- The read `m[k]` with the comma-ok form: `none` when the key is absent. -/
def Entries.get {V : Type} : Entries V → String → Option V
  | [], _ => none
  | (k, v) :: rest, key => if k = key then some v else Entries.get rest key

/-- The builtin `delete(m, k)`. -/
def Entries.remove {V : Type} (m : Entries V) (key : String) : Entries V :=
  m.filter (fun e => decide (e.1 ≠ key))

/-- The assignment `m[k] = v` on an allocated map. -/
def Entries.set {V : Type} (m : Entries V) (key : String) (v : V) : Entries V :=
  (key, v) :: m.remove key

/-- The keys of a map, in iteration order. -/
def Entries.keys {V : Type} (m : Entries V) : List String :=
  m.map Prod.fst

/-- A Go map value: the `nil` map (the zero value of a map type) or a map
allocated by `make`. -/
inductive GoMap (V : Type) where
  | nil
  | made (entries : Entries V)
  deriving DecidableEq, Repr

/-- Reading `m[k]`; a `nil` map reads as empty. -/
def GoMap.get {V : Type} : GoMap V → String → Option V
  | .nil, _ => none
  | .made es, key => es.get key

/-- Assigning `m[k] = v`; on a `nil` map Go panics ("assignment to entry in
nil map"), which is the result `none`. -/
def GoMap.assign {V : Type} : GoMap V → String → V → Option (GoMap V)
  | .nil, _, _ => none
  | .made es, key, v => some (.made (es.set key v))

/-- The builtin `delete(m, k)`; a no-op on a `nil` map. -/
def GoMap.delete {V : Type} : GoMap V → String → GoMap V
  | .nil, _ => .nil
  | .made es, key => .made (es.remove key)

/-- The entries a `range` over the map visits; none for a `nil` map. -/
def GoMap.entries {V : Type} : GoMap V → Entries V
  | .nil => []
  | .made es => es

-- Startup: `getAllInstances`

/-- The loop of `getAllInstances`: `instanceList[instance.UUID] = &instance` for
each listed instance.  The pointer `&instance` stands as the value of the
instance. -/
def getAllInstancesLoop : List ServiceInfo → GoMap ServiceInfo → Option (GoMap ServiceInfo)
  | [], instanceList => some instanceList
  | inst :: rest, instanceList =>
    (instanceList.assign inst.UUID inst).bind (getAllInstancesLoop rest)

/-- The function `getAllInstances`, given the listing `ListInstances` returned.  The named
result `instanceList` starts as the zero value of its map type, the `nil` map,
and is never allocated.  The result `none` is a run-time panic. -/
def getAllInstances (instances : List ServiceInfo) : Option (GoMap ServiceInfo) :=
  getAllInstancesLoop instances GoMap.nil

-- The body of the loop of `watchZookeeper`

/-- The two package-level variables the watch loop mutates. -/
structure WatchState where
  currentServices : GoMap ServiceInfo
  changedServices : List ServiceUpdate
  deriving DecidableEq, Repr

/-- One iteration of the additions loop: an instance whose UUID is not a key of
`currentServices` is stored under its UUID and an `ADD` record is appended. -/
def additionsStep (st : WatchState) (i : ServiceInfo) : Option WatchState :=
  match st.currentServices.get i.UUID with
  | some _ => some st
  | none =>
    (st.currentServices.assign i.UUID i).map fun m =>
      { currentServices := m
        changedServices := st.changedServices ++ [{ Service := i, Event := Event.ADD }] }

/-- The additions loop `for _, i := range instances`. -/
def additions : List ServiceInfo → WatchState → Option WatchState
  | [], st => some st
  | i :: rest, st => (additionsStep st i).bind (additions rest)

/-- The inner loop of the subtractions loop: `found` becomes true as soon as
some listed instance `in` has `currentServices[in.UUID]` present. -/
def found (instances : List ServiceInfo) (currentServices : GoMap ServiceInfo) : Bool :=
  instances.any fun in_ => (currentServices.get in_.UUID).isSome

/-- One iteration of the subtractions loop for the key `index`.  An entry
deleted before the `range` reaches it is not visited.  The record appended
carries `Service: i`; the source names `i` outside the loop that binds it, so
its value is the parameter `i`. -/
def subtractionsStep (instances : List ServiceInfo) (i : ServiceInfo)
    (st : WatchState) (index : String) : WatchState :=
  match st.currentServices.get index with
  | none => st
  | some inst =>
    if found instances st.currentServices then st
    else
      { currentServices := st.currentServices.delete inst.UUID
        changedServices := st.changedServices ++ [{ Service := i, Event := Event.DELETE }] }

/-- The subtractions loop `for index, inst := range currentServices`, over the
keys the map holds when the loop starts. -/
def subtractions (instances : List ServiceInfo) (i : ServiceInfo) (st : WatchState) :
    WatchState :=
  (st.currentServices.entries.keys).foldl (subtractionsStep instances i) st

/-- The body of the matching loop for one change record `c`: three
independent tests, each storing `c` under its UUID. -/
def notifyStep (query : ServiceQuery) (notifications : Entries ServiceUpdate)
    (c : ServiceUpdate) : Entries ServiceUpdate :=
  let n1 := if query.Name = c.Service.Name then notifications.set c.Service.UUID c
            else notifications
  let n2 := if query.Region = c.Service.Region then n1.set c.Service.UUID c else n1
  if query.Version = c.Service.Version then n2.set c.Service.UUID c else n2

/-- The map `notifications` built for one subscriber: allocated empty by
`make`, then filled by the loop over `changedServices`. -/
def buildNotifications (query : ServiceQuery) (changedServices : List ServiceUpdate) :
    Entries ServiceUpdate :=
  changedServices.foldl (notifyStep query) []

/-- The sends of `for x := range notifications { sub.serviceChannel <- x }`:
one send per entry of the map.  The range variable `x` of the source is the key
of the entry, while the channel carries `skynet.ServiceUpdate`; what is sent
is the update stored under that key. -/
def sendNotifications (notifications : Entries ServiceUpdate) : List ServiceUpdate :=
  notifications.map Prod.snd

/-- What one subscriber is sent in a pass over the batch `changedServices`. -/
def delivered (query : ServiceQuery) (changedServices : List ServiceUpdate) :
    List ServiceUpdate :=
  sendNotifications (buildNotifications query changedServices)

/-- The delivery loop `for _, sub := range subscribers`: for each subscriber,
its channel and the updates sent on it. -/
def deliverAll (subscribers : List subscriber) (changedServices : List ServiceUpdate) :
    List (Nat × List ServiceUpdate) :=
  subscribers.map fun sub => (sub.serviceChannel, delivered sub.query changedServices)

/-- The diff part of one pass: the additions loop followed by the subtractions
loop, for the listing `instances` that `ListInstances` returned. -/
def diffPass (i : ServiceInfo) (instances : List ServiceInfo) (st : WatchState) :
    Option WatchState :=
  (additions instances st).map (subtractions instances i)

/-- One pass of the loop body of `watchZookeeper` after the change event: the
diff, then the delivery of `changedServices` to every subscriber.  The slice
`changedServices` is not cleared between passes: the one statement above the
loop, `changeServices = changedServices[:]`, takes the full slice and assigns
it to another name.  The result `none` is a run-time panic. -/
def loopBody (i : ServiceInfo) (subscribers : List subscriber)
    (instances : List ServiceInfo) (st : WatchState) :
    Option (WatchState × List (Nat × List ServiceUpdate)) :=
  (diffPass i instances st).map fun st2 => (st2, deliverAll subscribers st2.changedServices)

-- The coordination store

/-- Modelled from the spec: the errors of the store primitive `create`
(`PathExistsError`, `ConnectionError`); the store client is an external
library. -/
inductive ZkError where
  | PathExists
  | ConnectionError
  deriving DecidableEq, Repr

/-- Modelled from the spec: a node of the key-tree, its value and whether it is
ephemeral. -/
structure ZNode where
  value : String
  ephemeral : Bool
  deriving DecidableEq, Repr

/-- Modelled from the spec: the state behind `sm.conn`, the external store
client.  `nodes` maps each existing path to its node; `connected` tells whether
the session reaches the store; `creates` counts the `Create` requests issued
on the connection and `failures` those of them that returned an error. -/
structure Conn where
  nodes : Entries ZNode
  connected : Bool
  creates : Nat
  failures : Nat
  deriving DecidableEq, Repr

/-- The flag `zookeeper.EPHEMERAL`. -/
def EPHEMERAL : Nat := 1

/-- Modelled from the spec: `exists(path) -> bool`, the test
`stat, _ := sm.conn.Exists(path); stat != nil`.  Without a session no stat is
returned. -/
def Conn.Exists (c : Conn) (path : String) : Bool :=
  c.connected && (c.nodes.get path).isSome

/-- Modelled from the spec:
`create(path, value, ephemeral) -> ok | PathExistsError | ConnectionError`.
The error (or `none` for ok) comes with the connection state after the
request; a refused request leaves every node as it was.  The ACL argument of
the source, always `WorldACL(PERM_ALL)`, is left out. -/
def Conn.Create (c : Conn) (path value : String) (flags : Nat) : Option ZkError × Conn :=
  if c.connected = false then
    (some ZkError.ConnectionError,
      { c with creates := c.creates + 1, failures := c.failures + 1 })
  else if (c.nodes.get path).isSome then
    (some ZkError.PathExists,
      { c with creates := c.creates + 1, failures := c.failures + 1 })
  else
    (none,
      { c with
        nodes := (path, { value := value, ephemeral := decide (flags = EPHEMERAL) }) :: c.nodes
        creates := c.creates + 1 })

-- `createPath`, `addService`, `createPaths`, `Add`

/-- Splitting a list of characters at every occurrence of `sep`. -/
def splitChars (sep : Char) : List Char → List (List Char)
  | [] => [[]]
  | ch :: rest =>
    if ch = sep then [] :: splitChars sep rest
    else
      match splitChars sep rest with
      | [] => [[ch]]
      | part :: parts => (ch :: part) :: parts

/-- The call `strings.Split(path, "/")`. -/
def stringsSplit (path : String) : List String :=
  (splitChars '/' path.toList).map String.mk

/-- The loop of `createPath` over the remaining `parts`, with the path built so
far.  The result is the returned error (`none` for `nil`) and the connection
state. -/
def createPathLoop : List String → String → Conn → Option ZkError × Conn
  | [], _, c => (none, c)
  | p :: parts, path, c =>
    if p = "" then createPathLoop parts path c
    else
      if c.Exists (path ++ "/" ++ p) then createPathLoop parts (path ++ "/" ++ p) c
      else
        match c.Create (path ++ "/" ++ p) "" 0 with
        | (some err, c1) => (some err, c1)
        | (none, c1) => createPathLoop parts (path ++ "/" ++ p) c1

/-- The method `createPath`. -/
def createPath (c : Conn) (path : String) : Option ZkError × Conn :=
  createPathLoop (stringsSplit path) "" c

/-- The method `addService`; the results of `createPath` and of every `Create`
are dropped, as in the source. -/
def addService (c : Conn) (s : ServiceInfo) : Conn :=
  let c1 := (createPath c ("/instances/" ++ s.UUID)).2
  let c2 := (c1.Create ("/instances/" ++ s.UUID ++ "/registered") "0" EPHEMERAL).2
  let c3 := (c2.Create ("/instances/" ++ s.UUID ++ "/addr") s.ServiceAddr.String EPHEMERAL).2
  let c4 := (c3.Create ("/instances/" ++ s.UUID ++ "/name") s.Name EPHEMERAL).2
  let c5 := (c4.Create ("/instances/" ++ s.UUID ++ "/version") s.Version EPHEMERAL).2
  (c5.Create ("/instances/" ++ s.UUID ++ "/region") s.Region EPHEMERAL).2

/-- The method `createPaths`. -/
def createPaths (c : Conn) (s : ServiceInfo) : Conn :=
  let c1 := (createPath c ("/regions/" ++ s.Region)).2
  let c2 := (c1.Create ("/regions/" ++ s.Region ++ "/" ++ s.UUID) "" EPHEMERAL).2
  let c3 := (createPath c2 ("/services/" ++ s.Name ++ "/" ++ s.Version)).2
  let c4 := (c3.Create ("/services/" ++ s.Name ++ "/" ++ s.UUID) "" EPHEMERAL).2
  let c5 :=
    (c4.Create ("/services/" ++ s.Name ++ "/" ++ s.Version ++ "/" ++ s.UUID) "" EPHEMERAL).2
  let c6 := (createPath c5 ("/hosts/" ++ s.ServiceAddr.IPAddress)).2
  (c6.Create ("/hosts/" ++ s.ServiceAddr.IPAddress ++ "/" ++ s.UUID) "" EPHEMERAL).2

/-- The method `Add`. -/
def Add (c : Conn) (s : ServiceInfo) : Conn :=
  createPaths (addService c s) s

/-- The prefixes `acc/c1`, `acc/c1/c2`, ... built from the components `comps`. -/
def prefixesFrom : String → List String → List String
  | _, [] => []
  | acc, p :: ps => (acc ++ "/" ++ p) :: prefixesFrom (acc ++ "/" ++ p) ps

/-- The prefixes `/c1`, `/c1/c2`, ..., `/c1/.../cn` built from the non-empty
components of `path` between slashes.  The components are those of the
library's list splitting at the slash character, independent of the model
`stringsSplit` of `strings.Split`. -/
def pathPrefixes (path : String) : List String :=
  prefixesFrom ""
    (((path.toList.splitOn '/').map String.mk).filter fun p => decide (p ≠ ""))


-- Sample values

/-- A registered instance with id `a`. -/
def svcA : ServiceInfo :=
  { UUID := "a", Name := "svc", Region := "eu", Version := "1.0",
    ServiceAddr := { IPAddress := "10.0.0.1", Port := 9000 } }

/-- A registered instance with id `b`. -/
def svcB : ServiceInfo :=
  { UUID := "b", Name := "svc", Region := "us", Version := "1.0",
    ServiceAddr := { IPAddress := "10.0.0.2", Port := 9000 } }

/-- A subscriber asking for the service name `svc`. -/
def subSvc : subscriber :=
  { query := { Name := "svc", Region := "", Version := "" }, serviceChannel := 0 }


-- The matching rule in the words of the specification

/-- The matching rule as the specification words it: some non-empty field of
the query among name, region and version equals the corresponding field of the
record's descriptor. -/
abbrev matchesNonEmpty (query : ServiceQuery) (c : ServiceUpdate) : Prop :=
  (query.Name ≠ "" ∧ query.Name = c.Service.Name) ∨
  (query.Region ≠ "" ∧ query.Region = c.Service.Region) ∨
  (query.Version ≠ "" ∧ query.Version = c.Service.Version)

/-- The query with every field left empty. -/
def emptyQuery : ServiceQuery :=
  { Name := "", Region := "", Version := "" }

/-- The record of an instance listed while its `/instances/{id}/region` node is
missing: `ListInstances` drops the error of `Get` and reads the region as the
empty string. -/
def noRegionRecord : ServiceUpdate :=
  { Service :=
      { UUID := "u1", Name := "svc", Region := "", Version := "1.0",
        ServiceAddr := { IPAddress := "10.0.0.1", Port := 9000 } }
    Event := Event.ADD }

/-- The query `{name: "A"}` with region and version left empty. -/
def nameAQuery : ServiceQuery :=
  { Name := "A", Region := "", Version := "" }

/-- A record for the descriptor `{name: "B", region: "A", version: "1.0"}`. -/
def nameBRegionARecord : ServiceUpdate :=
  { Service :=
      { UUID := "u2", Name := "B", Region := "A", Version := "1.0",
        ServiceAddr := { IPAddress := "10.0.0.2", Port := 9000 } }
    Event := Event.ADD }

/-- A record for the descriptor `{name: "B", region: "A"}` whose version is
empty. -/
def nameBRegionANoVersion : ServiceUpdate :=
  { Service :=
      { UUID := "u3", Name := "B", Region := "A", Version := "",
        ServiceAddr := { IPAddress := "10.0.0.3", Port := 9000 } }
    Event := Event.ADD }


-- The registration layout in the words of the specification

/-- The ephemeral leaves of the layout of one registered instance, each with
the value it holds: the five leaves under `/instances/{id}` and the four index
leaves. -/
def registrationLeaves (s : ServiceInfo) : List (String × String) :=
  [ ("/instances/" ++ s.UUID ++ "/registered", "0"),
    ("/instances/" ++ s.UUID ++ "/addr", s.ServiceAddr.String),
    ("/instances/" ++ s.UUID ++ "/name", s.Name),
    ("/instances/" ++ s.UUID ++ "/version", s.Version),
    ("/instances/" ++ s.UUID ++ "/region", s.Region),
    ("/regions/" ++ s.Region ++ "/" ++ s.UUID, ""),
    ("/services/" ++ s.Name ++ "/" ++ s.UUID, ""),
    ("/services/" ++ s.Name ++ "/" ++ s.Version ++ "/" ++ s.UUID, ""),
    ("/hosts/" ++ s.ServiceAddr.IPAddress ++ "/" ++ s.UUID, "") ]

/-- The state `c1` comes after `c` on the same connection: no fewer failed
requests, and every node of `c` still there with its value and kind. -/
def Conn.Extends (c c1 : Conn) : Prop :=
  c.failures ≤ c1.failures ∧ ∀ p n, c.nodes.get p = some n → c1.nodes.get p = some n

/-- The state `c1` comes after `c` on a live session with no failed request in
between and with no change at any path outside `P`. -/
def Conn.Reaches (c c1 : Conn) (P : List String) : Prop :=
  c1.connected = true ∧ c1.failures = c.failures ∧
    ∀ q, q ∉ P → c1.nodes.get q = c.nodes.get q

/-- An instance whose UUID is the same string as its version. -/
def svcSameVersion : ServiceInfo :=
  { UUID := "1.0", Name := "svc", Region := "eu", Version := "1.0",
    ServiceAddr := { IPAddress := "10.0.0.1", Port := 9000 } }

/-- A live store holding the one persistent node `/services`. -/
def servicesConn : Conn :=
  { nodes := [("/services", { value := "registry", ephemeral := false })],
    connected := true, creates := 0, failures := 0 }

/-- A store with no node, reached by a live session. -/
def emptyConn : Conn :=
  { nodes := [], connected := true, creates := 0, failures := 0 }

-- Invariant of the matching loop

/-- What the map `notifications` holds while the matching loop runs: distinct
keys, and under each key a record of the batch with that UUID for which one of
the three equalities holds. -/
def NotificationsInv (query : ServiceQuery) (B : List ServiceUpdate)
    (n : Entries ServiceUpdate) : Prop :=
  n.keys.Nodup ∧
  ∀ k c, n.get k = some c →
    c.Service.UUID = k ∧ c ∈ B ∧
    (query.Name = c.Service.Name ∨ query.Region = c.Service.Region ∨
      query.Version = c.Service.Version)


-- The model of `strings.Split`

theorem splitChars_ne_nil (sep : Char) (l : List Char) : splitChars sep l ≠ [] := by
  induction l with
  | nil => simp [splitChars]
  | cons ch rest ih =>
    unfold splitChars
    by_cases h : ch = sep
    · simp [h]
    · simp only [h, if_false]
      cases hs : splitChars sep rest with
      | nil => simp
      | cons part parts => simp

/-- The model of `strings.Split` agrees with the library's list splitting. -/
theorem splitChars_eq_splitOn (sep : Char) (l : List Char) :
    splitChars sep l = l.splitOn sep := by
  induction l with
  | nil => simp [splitChars, List.splitOn, List.splitOnP_nil]
  | cons ch rest ih =>
    unfold splitChars
    rw [List.splitOn, List.splitOnP_cons]
    rw [List.splitOn] at ih
    by_cases h : ch = sep
    · simp [h, ih]
    · have hb : (ch == sep) = false := by simp [h]
      simp only [h, if_false, hb, Bool.false_eq_true]
      rw [← ih]
      cases hs : splitChars sep rest with
      | nil => exact absurd hs (splitChars_ne_nil sep rest)
      | cons part parts => simp

theorem splitChars_append (sep : Char) (w : List Char) (hw : sep ∉ w) (x : List Char) :
    splitChars sep (x ++ sep :: w) = splitChars sep x ++ [w] := by
  induction x with
  | nil =>
    have hw1 : splitChars sep w = [w] := by
      induction w with
      | nil => simp [splitChars]
      | cons a w1 ih =>
        simp only [List.mem_cons, not_or] at hw
        have ha : ¬ a = sep := fun h => hw.1 h.symm
        unfold splitChars
        simp [ha, ih hw.2]
    simp [splitChars, hw1]
  | cons a x1 ih =>
    simp only [List.cons_append]
    unfold splitChars
    by_cases h : a = sep
    · simp [h, ih]
    · simp only [h, if_false, ih]
      cases hs : splitChars sep x1 with
      | nil => exact absurd hs (splitChars_ne_nil sep x1)
      | cons part parts => simp

/-- Appending `/p`, for a component `p` free of slashes, appends `p` to the
split. -/
theorem stringsSplit_append_component (X p : String) (hp : '/' ∉ p.toList) :
    stringsSplit (X ++ "/" ++ p) = stringsSplit X ++ [p] := by
  unfold stringsSplit
  have h : (X ++ "/" ++ p).toList = X.toList ++ '/' :: p.toList := by
    show (X.data ++ ['/']) ++ p.data = X.data ++ '/' :: p.data
    simp
  rw [h, splitChars_append '/' p.toList hp]
  simp

theorem stringsSplit_append_literal (X lit p : String) (hlit : lit = "/" ++ p)
    (hp : '/' ∉ p.toList) :
    stringsSplit (X ++ lit) = stringsSplit X ++ [p] := by
  subst hlit
  rw [← String.append_assoc]
  exact stringsSplit_append_component X p hp

-- Facts about Go maps

theorem Entries.get_remove {V : Type} (m : Entries V) (key k : String) :
    (m.remove key).get k = if k = key then none else m.get k := by
  induction m with
  | nil => simp [Entries.remove, Entries.get]
  | cons e rest ih =>
    obtain ⟨k0, v0⟩ := e
    unfold Entries.remove at ih ⊢
    by_cases h0 : k0 = key
    · subst h0
      simp only [List.filter, ne_eq, not_true_eq_false, decide_False]
      rw [ih]
      by_cases hk : k = k0
      · simp [hk]
      · have : ¬ k0 = k := fun h => hk h.symm
        simp [hk, Entries.get, this]
    · simp only [List.filter, ne_eq, h0, not_false_eq_true, decide_True, Entries.get]
      rw [ih]
      by_cases hk : k0 = k
      · subst hk
        simp [h0]
      · simp [hk]

theorem Entries.get_set {V : Type} (m : Entries V) (key k : String) (v : V) :
    (m.set key v).get k = if k = key then some v else m.get k := by
  unfold Entries.set
  simp only [Entries.get, Entries.get_remove]
  by_cases hk : key = k
  · simp [hk]
  · have : ¬ k = key := fun h => hk h.symm
    simp [hk, this]

theorem Entries.mem_keys_iff {V : Type} (m : Entries V) (k : String) :
    k ∈ m.keys ↔ (m.get k).isSome = true := by
  induction m with
  | nil => simp [Entries.keys, Entries.get]
  | cons e rest ih =>
    obtain ⟨k0, v0⟩ := e
    unfold Entries.keys at ih ⊢
    simp only [List.map_cons, List.mem_cons, Entries.get]
    by_cases h0 : k0 = k
    · simp [h0]
    · have : ¬ k = k0 := fun h => h0 h.symm
      simp [h0, this, ih]

theorem Entries.get_mem {V : Type} (m : Entries V) (k : String) (v : V)
    (h : m.get k = some v) : (k, v) ∈ m := by
  induction m with
  | nil => simp [Entries.get] at h
  | cons e rest ih =>
    obtain ⟨k0, v0⟩ := e
    simp only [Entries.get] at h
    by_cases h0 : k0 = k
    · simp only [h0, if_true, Option.some.injEq] at h
      simp [h0, h]
    · simp only [h0, if_false] at h
      exact List.mem_cons_of_mem _ (ih h)

theorem Entries.mem_get {V : Type} (m : Entries V) (k : String) (v : V)
    (hn : m.keys.Nodup) (h : (k, v) ∈ m) : m.get k = some v := by
  induction m with
  | nil => simp at h
  | cons e rest ih =>
    obtain ⟨k0, v0⟩ := e
    unfold Entries.keys at hn ih
    simp only [List.map_cons, List.nodup_cons, List.mem_map, not_exists, not_and] at hn
    simp only [List.mem_cons, Prod.mk.injEq] at h
    simp only [Entries.get]
    rcases h with ⟨hk, hv⟩ | h
    · simp [hk, hv]
    · have h0 : ¬ k0 = k := fun h1 => hn.1 (k, v) h (by simp [h1])
      simp only [h0, if_false]
      exact ih hn.2 h

theorem Entries.keys_remove_nodup {V : Type} (m : Entries V) (key : String)
    (hn : m.keys.Nodup) : (m.remove key).keys.Nodup := by
  unfold Entries.keys Entries.remove at *
  exact (List.Nodup.sublist (List.Sublist.map _ (List.filter_sublist _)) hn)

theorem Entries.keys_set_nodup {V : Type} (m : Entries V) (key : String) (v : V)
    (hn : m.keys.Nodup) : (m.set key v).keys.Nodup := by
  have h1 := Entries.keys_remove_nodup m key hn
  have h2 : key ∉ (m.remove key).keys := by
    rw [Entries.mem_keys_iff, Entries.get_remove]
    simp
  unfold Entries.set
  unfold Entries.keys at *
  simp only [List.map_cons, List.nodup_cons]
  exact ⟨h2, h1⟩


-- The diff pass

/-- The additions loop on an allocated snapshot never panics; it appends one
`ADD` record for each listed instance whose UUID the snapshot lacks, in listing
order, keeps every entry of the snapshot and adds the listed UUIDs as keys. -/
theorem additions_made (M : List ServiceInfo) :
    ∀ (S : Entries ServiceInfo) (changed : List ServiceUpdate),
      (M.map ServiceInfo.UUID).Nodup →
      ∃ S1 : Entries ServiceInfo,
        additions M ⟨GoMap.made S, changed⟩ =
          some ⟨GoMap.made S1,
            changed ++ (M.filter fun d => (S.get d.UUID).isNone).map
              fun d => { Service := d, Event := Event.ADD }⟩ ∧
        (∀ k, (S1.get k).isSome = true ↔ (S.get k).isSome = true ∨ k ∈ M.map ServiceInfo.UUID) ∧
        (∀ k v, S.get k = some v → S1.get k = some v) ∧
        (∀ d ∈ M, S.get d.UUID = none → S1.get d.UUID = some d) ∧
        (∀ k v, S1.get k = some v → S.get k = some v ∨ (v ∈ M ∧ v.UUID = k)) ∧
        (S.keys.Nodup → S1.keys.Nodup) := by
  induction M with
  | nil =>
    intro S changed _
    exact ⟨S, by simp [additions], by simp, fun _ _ h => h, by simp,
      fun _ _ h => Or.inl h, fun h => h⟩
  | cons d rest ih =>
    intro S changed hM
    simp only [List.map_cons, List.nodup_cons] at hM
    obtain ⟨hd, hrest⟩ := hM
    cases hget : S.get d.UUID with
    | some v =>
      obtain ⟨S1, h1, h2, h3, h4, h5, h6⟩ := ih S changed hrest
      refine ⟨S1, ?_, ?_, h3, ?_, ?_, h6⟩
      · simp only [additions, additionsStep, GoMap.get, hget, Option.bind_eq_bind,
          Option.some_bind, h1]
        simp [List.filter, hget]
      · intro k
        rw [h2 k]
        simp only [List.map_cons, List.mem_cons]
        constructor
        · rintro (h | h)
          · exact Or.inl h
          · exact Or.inr (Or.inr h)
        · rintro (h | h | h)
          · exact Or.inl h
          · subst h
            exact Or.inl (by simp [hget])
          · exact Or.inr h
      · intro e he hnone
        simp only [List.mem_cons] at he
        rcases he with he | he
        · subst he
          simp [hget] at hnone
        · exact h4 e he hnone
      · intro k w hk
        rcases h5 k w hk with h | ⟨h, hu⟩
        · exact Or.inl h
        · exact Or.inr ⟨List.mem_cons_of_mem _ h, hu⟩
    | none =>
      obtain ⟨S1, h1, h2, h3, h4, h5, h6⟩ :=
        ih (S.set d.UUID d) (changed ++ [{ Service := d, Event := Event.ADD }]) hrest
      have hfilter :
          (rest.filter fun e => ((S.set d.UUID d).get e.UUID).isNone) =
            rest.filter fun e => (S.get e.UUID).isNone := by
        apply List.filter_congr
        intro e he
        have hne : ¬ e.UUID = d.UUID := by
          intro heq
          exact hd (heq ▸ List.mem_map_of_mem ServiceInfo.UUID he)
        simp [Entries.get_set, hne]
      refine ⟨S1, ?_, ?_, ?_, ?_, ?_, fun h => h6 (Entries.keys_set_nodup S _ d h)⟩
      · simp only [additions, additionsStep, GoMap.get, hget, GoMap.assign, Option.map_some',
          Option.bind_eq_bind, Option.some_bind, h1, hfilter]
        simp [List.filter, hget]
      · intro k
        rw [h2 k, Entries.get_set]
        simp only [List.map_cons, List.mem_cons]
        by_cases hk : k = d.UUID
        · simp [hk]
        · simp [hk]
      · intro k v hkv
        apply h3
        rw [Entries.get_set]
        have hk : ¬ k = d.UUID := by
          intro heq
          rw [heq, hget] at hkv
          cases hkv
        simp [hk, hkv]
      · intro e he hnone
        simp only [List.mem_cons] at he
        rcases he with he | he
        · subst he
          apply h3
          simp [Entries.get_set]
        · apply h4 e he
          have hne : ¬ e.UUID = d.UUID := by
            intro heq
            exact hd (heq ▸ List.mem_map_of_mem ServiceInfo.UUID he)
          simp [Entries.get_set, hne, hnone]
      · intro k w hk
        rcases h5 k w hk with h | ⟨h, hu⟩
        · rw [Entries.get_set] at h
          by_cases hkd : k = d.UUID
          · simp only [hkd, if_true, Option.some.injEq] at h
            subst h
            exact Or.inr ⟨List.mem_cons_self _ _, hkd.symm⟩
          · simp only [hkd, if_false] at h
            exact Or.inl h
        · exact Or.inr ⟨List.mem_cons_of_mem _ h, hu⟩

/-- When `found` holds for the current snapshot, an iteration of the
subtractions loop changes nothing. -/
theorem subtractionsStep_found (instances : List ServiceInfo) (i : ServiceInfo)
    (st : WatchState) (index : String) (h : found instances st.currentServices = true) :
    subtractionsStep instances i st index = st := by
  unfold subtractionsStep
  cases st.currentServices.get index with
  | none => rfl
  | some inst => simp [h]

theorem foldl_subtractionsStep_found (instances : List ServiceInfo) (i : ServiceInfo)
    (ks : List String) (st : WatchState) (h : found instances st.currentServices = true) :
    ks.foldl (subtractionsStep instances i) st = st := by
  induction ks with
  | nil => rfl
  | cons k rest ih =>
    simp only [List.foldl_cons, subtractionsStep_found instances i st k h]
    exact ih

/-- With an empty listing every visited entry is deleted and one `DELETE`
record is appended for it. -/
theorem foldl_subtractionsStep_nil (i : ServiceInfo) (ks : List String) :
    ∀ (m : Entries ServiceInfo) (changed : List ServiceUpdate),
      ks.Nodup →
      (∀ k ∈ ks, ∃ v, m.get k = some v ∧ v.UUID = k) →
      ks.foldl (subtractionsStep [] i) ⟨GoMap.made m, changed⟩ =
        ⟨GoMap.made (m.filter fun e => decide (e.1 ∉ ks)),
          changed ++ List.replicate ks.length { Service := i, Event := Event.DELETE }⟩ := by
  induction ks with
  | nil =>
    intro m changed _ _
    simp
  | cons k rest ih =>
    intro m changed hn hks
    simp only [List.nodup_cons] at hn
    obtain ⟨v, hv, hu⟩ := hks k (List.mem_cons_self _ _)
    have hstep :
        subtractionsStep [] i ⟨GoMap.made m, changed⟩ k =
          ⟨GoMap.made (m.remove k),
            changed ++ [{ Service := i, Event := Event.DELETE }]⟩ := by
      simp [subtractionsStep, GoMap.get, hv, found, GoMap.delete, hu]
    rw [List.foldl_cons, hstep, ih (m.remove k) _ hn.2]
    · have hfil :
          (m.remove k).filter (fun e => decide (e.1 ∉ rest)) =
            m.filter fun e => decide (e.1 ∉ k :: rest) := by
        unfold Entries.remove
        rw [List.filter_filter]
        apply List.filter_congr
        intro e _
        by_cases h1 : e.1 = k <;> by_cases h2 : e.1 ∈ rest <;> simp [h1, h2]
      rw [hfil]
      simp [List.replicate_succ, List.append_assoc]
    · intro k1 hk1
      obtain ⟨v1, hv1, hu1⟩ := hks k1 (List.mem_cons_of_mem _ hk1)
      refine ⟨v1, ?_, hu1⟩
      rw [Entries.get_remove]
      have hne : ¬ k1 = k := fun h => hn.1 (h ▸ hk1)
      simp [hne, hv1]


/-- C9, amended.  One diff pass from an allocated snapshot `S` in which every
entry is stored under its own UUID (the keys being distinct, as in any map) and
a listing `M` with pairwise distinct UUIDs never panics.  When `M` is non-empty
it appends exactly the `ADD` records of the listed instances whose UUID is not
a key of `S`, in listing order, and no other record; the keys afterwards are
those of `S` together with the UUIDs of `M`, every entry of `S` is still there,
and the snapshot again has distinct keys with each entry under its own UUID.
When `M` is empty the subtractions loop deletes every entry of `S` and appends
one `DELETE` record per entry. -/
theorem diffPass_exact (i : ServiceInfo) (S : Entries ServiceInfo)
    (changed : List ServiceUpdate) (M : List ServiceInfo)
    (hS : S.keys.Nodup) (hU : ∀ e ∈ S, e.2.UUID = e.1)
    (hM : (M.map ServiceInfo.UUID).Nodup) :
    (M ≠ [] →
      ∃ S1 : Entries ServiceInfo,
        diffPass i M ⟨GoMap.made S, changed⟩ =
          some ⟨GoMap.made S1,
            changed ++ (M.filter fun d => decide (d.UUID ∉ S.keys)).map
              fun d => { Service := d, Event := Event.ADD }⟩ ∧
        (∀ k, k ∈ S1.keys ↔ k ∈ S.keys ∨ k ∈ M.map ServiceInfo.UUID) ∧
        (∀ k v, S.get k = some v → S1.get k = some v) ∧
        S1.keys.Nodup ∧ (∀ e ∈ S1, e.2.UUID = e.1)) ∧
    (M = [] →
      diffPass i M ⟨GoMap.made S, changed⟩ =
        some ⟨GoMap.made [],
          changed ++ List.replicate S.length { Service := i, Event := Event.DELETE }⟩) := by
  constructor
  · intro hne
    obtain ⟨S1, h1, h2, h3, h4, h5, h6⟩ := additions_made M S changed hM
    have hfil :
        (M.filter fun d => decide (d.UUID ∉ S.keys)) =
          M.filter fun d => (S.get d.UUID).isNone := by
      apply List.filter_congr
      intro d _
      have hiff := Entries.mem_keys_iff S d.UUID
      cases hget : S.get d.UUID with
      | none =>
        have : d.UUID ∉ S.keys := by
          intro hk
          simp [hget] at hiff
          exact hiff hk
        simp [this]
      | some v =>
        have : d.UUID ∈ S.keys := hiff.2 (by simp [hget])
        simp [this]
    refine ⟨S1, ?_, ?_, h3, h6 hS, ?_⟩
    · have hfound :
          found M (GoMap.made S1) = true := by
        cases M with
        | nil => exact absurd rfl hne
        | cons d rest =>
          have : (S1.get d.UUID).isSome = true := (h2 d.UUID).2 (Or.inr (by simp))
          simp [found, GoMap.get, this]
      unfold diffPass
      rw [h1, hfil]
      simp only [Option.map_some', subtractions]
      rw [foldl_subtractionsStep_found M i _ _ hfound]
    · intro k
      rw [Entries.mem_keys_iff, Entries.mem_keys_iff]
      exact h2 k
    · intro e he
      obtain ⟨k, v⟩ := e
      rcases h5 k v (Entries.mem_get S1 k v (h6 hS) he) with h | ⟨_, hu⟩
      · exact hU (k, v) (Entries.get_mem S k v h)
      · exact hu
  · intro hnil
    subst hnil
    have hks : ∀ k ∈ S.keys, ∃ v, S.get k = some v ∧ v.UUID = k := by
      intro k hk
      rw [Entries.mem_keys_iff] at hk
      cases hget : S.get k with
      | none => simp [hget] at hk
      | some v => exact ⟨v, rfl, hU (k, v) (Entries.get_mem S k v hget)⟩
    have hempty : (S.filter fun e => decide (e.1 ∉ S.keys)) = [] := by
      rw [List.filter_eq_nil_iff]
      intro e he
      have : e.1 ∈ S.keys := List.mem_map_of_mem Prod.fst he
      simp [this]
    unfold diffPass
    simp only [additions, Option.map_some', subtractions, GoMap.entries]
    rw [foldl_subtractionsStep_nil i S.keys S changed hS hks, hempty]
    simp [Entries.keys]

/-- Witness for C9: the snapshot `{a}` and the listing `[b]`. -/
theorem diffPass_exact_witness :
    ((Entries.keys [("a", svcA)]).Nodup ∧
      (∀ e ∈ [("a", svcA)], e.2.UUID = e.1) ∧
      ([svcB].map ServiceInfo.UUID).Nodup) ∧
    ([svcB] ≠ [] →
      ∃ S1 : Entries ServiceInfo,
        diffPass svcA [svcB] ⟨GoMap.made [("a", svcA)], []⟩ =
          some ⟨GoMap.made S1,
            [] ++ ([svcB].filter fun d => decide (d.UUID ∉ Entries.keys [("a", svcA)])).map
              fun d => { Service := d, Event := Event.ADD }⟩ ∧
        (∀ k, k ∈ S1.keys ↔
          k ∈ Entries.keys [("a", svcA)] ∨ k ∈ [svcB].map ServiceInfo.UUID) ∧
        (∀ k v, Entries.get [("a", svcA)] k = some v → S1.get k = some v) ∧
        S1.keys.Nodup ∧ (∀ e ∈ S1, e.2.UUID = e.1)) ∧
    ([svcB] = [] →
      diffPass svcA [svcB] ⟨GoMap.made [("a", svcA)], []⟩ =
        some ⟨GoMap.made [],
          [] ++ List.replicate [("a", svcA)].length
            { Service := svcA, Event := Event.DELETE }⟩) :=
  ⟨⟨by decide, by decide, by decide⟩,
    diffPass_exact svcA [("a", svcA)] [] [svcB] (by decide) (by decide) (by decide)⟩

/-- C9, counterexample.  On the `nil` snapshot a pass over the listing `[b]`
panics on the first insertion; and on the snapshot that holds the descriptor of
`b` under the key `a`, a pass over the empty listing deletes the absent key `b`
and leaves the entry `a` in place. -/
theorem diffPass_nil_or_misfiled_snapshot :
    diffPass svcA [svcB] ⟨GoMap.nil, []⟩ = none ∧
      diffPass svcA [] ⟨GoMap.made [("a", svcB)], []⟩ =
        some ⟨GoMap.made [("a", svcB)], [{ Service := svcA, Event := Event.DELETE }]⟩ := by
  decide

/-- C1. On the snapshot `{a}` and the listing `[b]` the pass records the
addition of `b` and nothing for `a`, which left the membership: no `DELETE`
record is produced. -/
theorem diffPass_omits_delete (i : ServiceInfo) :
    (diffPass i [svcB] ⟨GoMap.made [("a", svcA)], []⟩).map WatchState.changedServices =
      some [{ Service := svcB, Event := Event.ADD }] := by
  rfl

/-- C2. On the snapshot `{a}` and the listing `[b]` the keys of
`currentServices` after the pass are `b` and `a`: the id `a`, absent from the
listing, remains. -/
theorem diffPass_keeps_stale_key (i : ServiceInfo) :
    (diffPass i [svcB] ⟨GoMap.made [("a", svcA)], []⟩).map
        (fun st => st.currentServices.entries.keys) =
      some ["b", "a"] := by
  rfl

/-- C3. Two passes in a row over the same listing `[b]`, from an empty snapshot
and an empty `changedServices`: the second pass appends nothing, yet its batch
still holds the `ADD` record of the first pass and the subscriber is sent it
again. -/
theorem second_pass_redelivers (i : ServiceInfo) :
    (loopBody i [subSvc] [svcB] ⟨GoMap.made [], []⟩).bind
        (fun r => loopBody i [subSvc] [svcB] r.1) =
      some (⟨GoMap.made [("b", svcB)], [{ Service := svcB, Event := Event.ADD }]⟩,
        [(0, [{ Service := svcB, Event := Event.ADD }])]) := by
  rfl

/-- C8. The function `getAllInstances` panics on every non-empty listing, since it
assigns into the `nil` map `instanceList`; on the empty listing it returns the
`nil` map, and the additions loop of a later pass panics on inserting the
first instance into it. -/
theorem getAllInstances_nil_map :
    (∀ (inst : ServiceInfo) (rest : List ServiceInfo),
      getAllInstances (inst :: rest) = none) ∧
    getAllInstances [] = some GoMap.nil ∧
    (∀ (d : ServiceInfo) (rest : List ServiceInfo) (changed : List ServiceUpdate),
      additions (d :: rest) ⟨GoMap.nil, changed⟩ = none) := by
  refine ⟨fun _ _ => rfl, rfl, fun _ _ _ => rfl⟩


-- Matching and delivery

theorem Entries.remove_remove {V : Type} (m : Entries V) (key : String) :
    (m.remove key).remove key = m.remove key := by
  unfold Entries.remove
  rw [List.filter_filter]
  simp

theorem Entries.set_set {V : Type} (m : Entries V) (key : String) (v : V) :
    (m.set key v).set key v = m.set key v := by
  have h : (m.set key v).remove key = m.remove key := by
    unfold Entries.set
    show List.filter _ ((key, v) :: m.remove key) = m.remove key
    simp only [List.filter, ne_eq, not_true_eq_false, decide_False]
    exact Entries.remove_remove m key
  show (key, v) :: (m.set key v).remove key = (key, v) :: m.remove key
  rw [h]

/-- The three tests of the matching loop store `c` exactly when one of the
three equalities holds. -/
theorem notifyStep_eq (query : ServiceQuery) (n : Entries ServiceUpdate) (c : ServiceUpdate) :
    notifyStep query n c =
      if query.Name = c.Service.Name ∨ query.Region = c.Service.Region ∨
          query.Version = c.Service.Version
      then n.set c.Service.UUID c else n := by
  unfold notifyStep
  by_cases h1 : query.Name = c.Service.Name <;>
    by_cases h2 : query.Region = c.Service.Region <;>
      by_cases h3 : query.Version = c.Service.Version <;>
        simp [h1, h2, h3, Entries.set_set]

theorem get_notifyStep_ne (query : ServiceQuery) (n : Entries ServiceUpdate)
    (c : ServiceUpdate) (k : String) (hk : c.Service.UUID ≠ k) :
    (notifyStep query n c).get k = n.get k := by
  rw [notifyStep_eq]
  have hk1 : ¬ k = c.Service.UUID := fun h => hk h.symm
  split
  · rw [Entries.get_set]
    simp [hk1]
  · rfl

theorem get_foldl_notifyStep_ne (query : ServiceQuery) (post : List ServiceUpdate)
    (k : String) :
    ∀ n : Entries ServiceUpdate, (∀ x ∈ post, x.Service.UUID ≠ k) →
      (post.foldl (notifyStep query) n).get k = n.get k := by
  induction post with
  | nil => intro n _; rfl
  | cons x rest ih =>
    intro n h
    rw [List.foldl_cons, ih _ (fun y hy => h y (List.mem_cons_of_mem _ hy))]
    exact get_notifyStep_ne query n x k (h x (List.mem_cons_self _ _))


theorem notificationsInv_step (query : ServiceQuery) (B : List ServiceUpdate)
    (n : Entries ServiceUpdate) (c : ServiceUpdate) (hc : c ∈ B)
    (h : NotificationsInv query B n) : NotificationsInv query B (notifyStep query n c) := by
  rw [notifyStep_eq]
  split
  · rename_i hm
    refine ⟨Entries.keys_set_nodup n _ c h.1, ?_⟩
    intro k c1 hget
    rw [Entries.get_set] at hget
    by_cases hk : k = c.Service.UUID
    · simp only [hk, if_true, Option.some.injEq] at hget
      subst hget
      exact ⟨hk.symm, hc, hm⟩
    · simp only [hk, if_false] at hget
      exact h.2 k c1 hget
  · exact h

theorem notificationsInv_foldl (query : ServiceQuery) (B l : List ServiceUpdate) :
    ∀ n : Entries ServiceUpdate, (∀ x ∈ l, x ∈ B) → NotificationsInv query B n →
      NotificationsInv query B (l.foldl (notifyStep query) n) := by
  induction l with
  | nil => intro n _ h; exact h
  | cons x rest ih =>
    intro n hl h
    rw [List.foldl_cons]
    exact ih _ (fun y hy => hl y (List.mem_cons_of_mem _ hy))
      (notificationsInv_step query B n x (hl x (List.mem_cons_self _ _)) h)

theorem notificationsInv_build (query : ServiceQuery) (batch : List ServiceUpdate) :
    NotificationsInv query batch (buildNotifications query batch) := by
  unfold buildNotifications
  apply notificationsInv_foldl query batch batch [] (fun _ h => h)
  exact ⟨by simp [Entries.keys], by intro k c h; simp [Entries.get] at h⟩

/-- A record is sent exactly when `notifications` holds it under its UUID. -/
theorem mem_delivered_iff_get (query : ServiceQuery) (batch : List ServiceUpdate)
    (c : ServiceUpdate) :
    c ∈ delivered query batch ↔
      (buildNotifications query batch).get c.Service.UUID = some c := by
  have hinv := notificationsInv_build query batch
  unfold delivered sendNotifications
  constructor
  · intro h
    obtain ⟨e, he, hec⟩ := List.mem_map.1 h
    obtain ⟨k, c1⟩ := e
    simp only at hec
    subst hec
    have hg := Entries.mem_get _ k c1 hinv.1 he
    have hk := (hinv.2 k c1 hg).1
    rw [hk]
    exact hg
  · intro h
    exact List.mem_map.2 ⟨(c.Service.UUID, c), Entries.get_mem _ _ _ h, rfl⟩

/-- A record after which no record of the batch has the same UUID is held by
`notifications` when one of the three equalities holds for it. -/
theorem get_build_last (query : ServiceQuery) (pre post : List ServiceUpdate)
    (c : ServiceUpdate)
    (hm : query.Name = c.Service.Name ∨ query.Region = c.Service.Region ∨
      query.Version = c.Service.Version)
    (hpost : ∀ x ∈ post, x.Service.UUID ≠ c.Service.UUID) :
    (buildNotifications query (pre ++ c :: post)).get c.Service.UUID = some c := by
  unfold buildNotifications
  rw [List.foldl_append, List.foldl_cons, get_foldl_notifyStep_ne query post _ _ hpost,
    notifyStep_eq]
  simp [hm, Entries.get_set]

/-- In a batch with pairwise distinct UUIDs a record of the batch is sent
exactly when one of the three equalities holds for it. -/
theorem mem_delivered_iff (query : ServiceQuery) (batch : List ServiceUpdate)
    (c : ServiceUpdate) (hn : (batch.map fun x => x.Service.UUID).Nodup) (hc : c ∈ batch) :
    c ∈ delivered query batch ↔
      (query.Name = c.Service.Name ∨ query.Region = c.Service.Region ∨
        query.Version = c.Service.Version) := by
  rw [mem_delivered_iff_get]
  constructor
  · intro h
    exact ((notificationsInv_build query batch).2 _ c h).2.2
  · intro hm
    obtain ⟨pre, post, hsplit⟩ := List.append_of_mem hc
    subst hsplit
    apply get_build_last query pre post c hm
    intro x hx heq
    rw [List.map_append, List.map_cons] at hn
    have h1 := (List.nodup_append.1 hn).2.1
    rw [List.nodup_cons] at h1
    exact h1.1 (heq ▸ List.mem_map_of_mem (fun x => x.Service.UUID) hx)

theorem filter_eq_singleton_of_nodup_map {α β : Type} [DecidableEq β] (f : α → β)
    (l : List α) (c : α) (hn : (l.map f).Nodup) (hc : c ∈ l) :
    l.filter (fun x => decide (f x = f c)) = [c] := by
  induction l with
  | nil => simp at hc
  | cons x rest ih =>
    simp only [List.map_cons, List.nodup_cons] at hn
    simp only [List.mem_cons] at hc
    rcases hc with hc | hc
    · subst hc
      have hrest : rest.filter (fun x => decide (f x = f c)) = [] := by
        rw [List.filter_eq_nil_iff]
        intro y hy
        have : ¬ f y = f c := fun h => hn.1 (h ▸ List.mem_map_of_mem f hy)
        simp [this]
      simp [List.filter, hrest]
    · have hx : ¬ f x = f c := fun h => hn.1 (h ▸ List.mem_map_of_mem f hc)
      simp only [List.filter, hx, decide_False]
      exact ih hn.2 hc

theorem delivered_uuids_nodup (query : ServiceQuery) (batch : List ServiceUpdate) :
    ((delivered query batch).map fun x => x.Service.UUID).Nodup := by
  have hinv := notificationsInv_build query batch
  have hmap :
      ((delivered query batch).map fun x => x.Service.UUID) =
        (buildNotifications query batch).keys := by
    unfold delivered sendNotifications Entries.keys
    rw [List.map_map]
    apply List.map_congr_left
    intro e he
    obtain ⟨k, c1⟩ := e
    exact (hinv.2 k c1 (Entries.mem_get _ k c1 hinv.1 he)).1
  rw [hmap]
  exact hinv.1


/-- C4, counterexample.  The empty query is sent the record of an instance whose
region reads as the empty string, although no non-empty field of the query
equals a field of the descriptor. -/
theorem empty_query_matches_empty_field :
    noRegionRecord ∈ delivered emptyQuery [noRegionRecord] ∧
      ¬ matchesNonEmpty emptyQuery noRegionRecord := by
  decide

/-- C4, amended.  Right after the matching loop has handled the record `c`, the
map `notifications` holds `c` under its UUID if and only if the name, the
region or the version of the query equals the corresponding field of the
descriptor of `c`, empty strings included; and in a batch with pairwise
distinct UUIDs a record of the batch is sent to the subscriber under the same
condition. -/
theorem notifications_plain_equality (query : ServiceQuery) (c : ServiceUpdate) :
    (∀ pre : List ServiceUpdate,
      (buildNotifications query (pre ++ [c])).get c.Service.UUID = some c ↔
        (query.Name = c.Service.Name ∨ query.Region = c.Service.Region ∨
          query.Version = c.Service.Version)) ∧
    (∀ batch : List ServiceUpdate,
      (batch.map fun x => x.Service.UUID).Nodup → c ∈ batch →
        (c ∈ delivered query batch ↔
          (query.Name = c.Service.Name ∨ query.Region = c.Service.Region ∨
            query.Version = c.Service.Version))) := by
  constructor
  · intro pre
    constructor
    · intro h
      exact ((notificationsInv_build query (pre ++ [c])).2 _ c h).2.2
    · intro hm
      exact get_build_last query pre [] c hm (by simp)
  · intro batch hn hc
    exact mem_delivered_iff query batch c hn hc

/-- Witness for C4: the empty query and the batch
holding the one record whose region is empty. -/
theorem notifications_plain_equality_witness :
    (([noRegionRecord].map fun x => x.Service.UUID).Nodup ∧
      noRegionRecord ∈ [noRegionRecord]) ∧
    (noRegionRecord ∈ delivered emptyQuery [noRegionRecord] ↔
      (emptyQuery.Name = noRegionRecord.Service.Name ∨
        emptyQuery.Region = noRegionRecord.Service.Region ∨
        emptyQuery.Version = noRegionRecord.Service.Version)) :=
  ⟨⟨by decide, by decide⟩,
    (notifications_plain_equality emptyQuery noRegionRecord).2 [noRegionRecord]
      (by decide) (by decide)⟩

/-- C5, counterexample.  The subscriber with the query `{name: "A"}` is not sent
the record for the descriptor `{name: "B", region: "A", version: "1.0"}`. -/
theorem name_query_misses_region_value :
    nameBRegionARecord ∈ [nameBRegionARecord] ∧
      nameBRegionARecord.Service.Name = "B" ∧ nameBRegionARecord.Service.Region = "A" ∧
      nameBRegionARecord ∉ delivered nameAQuery [nameBRegionARecord] := by
  decide

/-- C5, amended.  In a batch with pairwise distinct UUIDs, a record whose
descriptor has name `B` and region `A` is sent to the subscriber with the query
`{name: "A"}` if and only if the version of the descriptor is empty. -/
theorem name_query_scenario (batch : List ServiceUpdate) (c : ServiceUpdate)
    (hn : (batch.map fun x => x.Service.UUID).Nodup) (hc : c ∈ batch)
    (hname : c.Service.Name = "B") (hregion : c.Service.Region = "A") :
    c ∈ delivered nameAQuery batch ↔ c.Service.Version = "" := by
  rw [mem_delivered_iff nameAQuery batch c hn hc, hname, hregion]
  have h1 : ¬ nameAQuery.Name = "B" := by decide
  have h2 : ¬ nameAQuery.Region = "A" := by decide
  have h3 : nameAQuery.Version = "" := rfl
  rw [h3]
  constructor
  · rintro (h | h | h)
    · exact absurd h h1
    · exact absurd h h2
    · exact h.symm
  · intro h
    exact Or.inr (Or.inr h.symm)

/-- Witness for C5: the batch holding the one record with
name `B`, region `A` and an empty version. -/
theorem name_query_scenario_witness :
    (([nameBRegionANoVersion].map fun x => x.Service.UUID).Nodup ∧
      nameBRegionANoVersion ∈ [nameBRegionANoVersion] ∧
      nameBRegionANoVersion.Service.Name = "B" ∧
      nameBRegionANoVersion.Service.Region = "A") ∧
    (nameBRegionANoVersion ∈ delivered nameAQuery [nameBRegionANoVersion] ↔
      nameBRegionANoVersion.Service.Version = "") :=
  ⟨⟨by decide, by decide, by decide, by decide⟩,
    name_query_scenario [nameBRegionANoVersion] nameBRegionANoVersion
      (by decide) (by decide) (by decide) (by decide)⟩

/-- C6.  The records sent to one subscriber in one pass carry pairwise distinct
UUIDs; and when the batch holds two records `c1`, then `c2`, with the same UUID
that both pass the tests of the matching loop, and no record after `c2` has that
UUID, exactly one record with that UUID is sent and it is `c2`, the later of
the two. -/
theorem delivered_dedup (query : ServiceQuery) (batch : List ServiceUpdate) :
    ((delivered query batch).map fun x => x.Service.UUID).Nodup ∧
    (∀ (l1 l2 l3 : List ServiceUpdate) (c1 c2 : ServiceUpdate),
      batch = l1 ++ c1 :: (l2 ++ c2 :: l3) →
      c1.Service.UUID = c2.Service.UUID →
      (query.Name = c1.Service.Name ∨ query.Region = c1.Service.Region ∨
        query.Version = c1.Service.Version) →
      (query.Name = c2.Service.Name ∨ query.Region = c2.Service.Region ∨
        query.Version = c2.Service.Version) →
      (∀ x ∈ l3, x.Service.UUID ≠ c2.Service.UUID) →
      (delivered query batch).filter
        (fun x => decide (x.Service.UUID = c2.Service.UUID)) = [c2]) := by
  refine ⟨delivered_uuids_nodup query batch, ?_⟩
  intro l1 l2 l3 c1 c2 hb _ _ hm2 hl3
  apply filter_eq_singleton_of_nodup_map (fun x : ServiceUpdate => x.Service.UUID)
    _ c2 (delivered_uuids_nodup query batch)
  rw [mem_delivered_iff_get, hb]
  have hre : l1 ++ c1 :: (l2 ++ c2 :: l3) = (l1 ++ c1 :: l2) ++ c2 :: l3 := by simp
  rw [hre]
  exact get_build_last query (l1 ++ c1 :: l2) l3 c2 hm2 hl3

/-- Witness for C6: the batch `ADD b`, `DELETE b` and a subscriber
asking for the name `svc`; only `DELETE b` is sent. -/
theorem delivered_dedup_witness :
    ([{ Service := svcB, Event := Event.ADD }, { Service := svcB, Event := Event.DELETE }] =
        [] ++ { Service := svcB, Event := Event.ADD } ::
          ([] ++ { Service := svcB, Event := Event.DELETE } :: ([] : List ServiceUpdate)) ∧
      svcB.UUID = svcB.UUID ∧
      (subSvc.query.Name = svcB.Name ∨ subSvc.query.Region = svcB.Region ∨
        subSvc.query.Version = svcB.Version) ∧
      (∀ x ∈ ([] : List ServiceUpdate), x.Service.UUID ≠ svcB.UUID)) ∧
    (delivered subSvc.query
        [{ Service := svcB, Event := Event.ADD },
          { Service := svcB, Event := Event.DELETE }]).filter
      (fun x => decide (x.Service.UUID = svcB.UUID)) =
        [{ Service := svcB, Event := Event.DELETE }] :=
  ⟨⟨by decide, rfl, by decide, by decide⟩,
    (delivered_dedup subSvc.query
      [{ Service := svcB, Event := Event.ADD },
        { Service := svcB, Event := Event.DELETE }]).2
      [] [] [] { Service := svcB, Event := Event.ADD }
      { Service := svcB, Event := Event.DELETE }
      (by decide) rfl (by decide) (by decide) (by decide)⟩


-- The store: `createPath` and `Add`

theorem Conn.extends_refl (c : Conn) : c.Extends c :=
  ⟨Nat.le_refl _, fun _ _ h => h⟩

theorem Conn.extends_trans {c c1 c2 : Conn} (h1 : c.Extends c1) (h2 : c1.Extends c2) :
    c.Extends c2 :=
  ⟨Nat.le_trans h1.1 h2.1, fun p n h => h2.2 p n (h1.2 p n h)⟩

theorem Conn.create_extends (c : Conn) (path value : String) (flags : Nat) :
    c.Extends (c.Create path value flags).2 := by
  unfold Conn.Create
  by_cases hc : c.connected = false
  · simp only [hc, if_true]
    exact ⟨Nat.le_succ _, fun _ _ h => h⟩
  · by_cases he : (c.nodes.get path).isSome = true
    · simp only [hc, if_false, he, if_true]
      exact ⟨Nat.le_succ _, fun _ _ h => h⟩
    · simp only [hc, if_false, he]
      refine ⟨Nat.le_refl _, ?_⟩
      intro p n h
      have hne : ¬ path = p := by
        intro heq
        rw [heq, h] at he
        simp at he
      simp [Entries.get, hne, h]

/-- A `Create` request that does not raise the count of failures has stored the
node. -/
theorem Conn.create_ok (c : Conn) (path value : String) (flags : Nat)
    (h : (c.Create path value flags).2.failures = c.failures) :
    (c.Create path value flags).2.nodes.get path =
      some { value := value, ephemeral := decide (flags = EPHEMERAL) } := by
  unfold Conn.Create at h ⊢
  by_cases hc : c.connected = false
  · simp [hc] at h
  · by_cases he : (c.nodes.get path).isSome = true
    · simp [hc, he] at h
    · simp [hc, he, Entries.get]

/-- On a live session a `Create` request for an absent path succeeds, keeps
the session live and stores the node. -/
theorem Conn.create_fresh (c : Conn) (path value : String) (flags : Nat)
    (hc : c.connected = true) (hget : c.nodes.get path = none) :
    (c.Create path value flags).1 = none ∧
      (c.Create path value flags).2.connected = true ∧
      ((c.Create path value flags).2.nodes.get path).isSome = true := by
  simp [Conn.Create, hc, hget, Entries.get]

theorem createPathLoop_extends (parts : List String) :
    ∀ (acc : String) (c : Conn), c.Extends (createPathLoop parts acc c).2 := by
  induction parts with
  | nil => intro acc c; exact Conn.extends_refl c
  | cons p rest ih =>
    intro acc c
    unfold createPathLoop
    by_cases hp : p = ""
    · simp only [hp, if_true]
      exact ih acc c
    · simp only [hp, if_false]
      by_cases he : c.Exists (acc ++ "/" ++ p) = true
      · simp only [he, if_true]
        exact ih _ c
      · simp only [he]
        have hcr := Conn.create_extends c (acc ++ "/" ++ p) "" 0
        cases hres : c.Create (acc ++ "/" ++ p) "" 0 with
        | mk err c1 =>
          rw [hres] at hcr
          cases err with
          | some e => exact hcr
          | none => exact Conn.extends_trans hcr (ih _ c1)

theorem createPath_extends (c : Conn) (path : String) : c.Extends (createPath c path).2 :=
  createPathLoop_extends _ _ c

/-- On a live session the loop of `createPath` returns `nil`, keeps the session
live, leaves every prefix it walks through in the store and keeps every node
that was there. -/
theorem createPathLoop_connected (parts : List String) :
    ∀ (acc : String) (c : Conn), c.connected = true →
      (createPathLoop parts acc c).1 = none ∧
      (createPathLoop parts acc c).2.connected = true ∧
      (∀ p ∈ prefixesFrom acc (parts.filter fun p => decide (p ≠ "")),
        (createPathLoop parts acc c).2.Exists p = true) := by
  induction parts with
  | nil =>
    intro acc c hc
    simp [createPathLoop, prefixesFrom, hc]
  | cons p rest ih =>
    intro acc c hc
    unfold createPathLoop
    by_cases hp : p = ""
    · simp only [hp, if_true]
      have := ih acc c hc
      simpa [List.filter] using this
    · simp only [hp, if_false]
      have hfil :
          ((p :: rest).filter fun p => decide (p ≠ "")) =
            p :: rest.filter fun p => decide (p ≠ "") := by
        simp [List.filter, hp]
      rw [hfil]
      simp only [prefixesFrom, List.mem_cons, forall_eq_or_imp]
      by_cases he : c.Exists (acc ++ "/" ++ p) = true
      · simp only [he, if_true]
        obtain ⟨h1, h2, h3⟩ := ih (acc ++ "/" ++ p) c hc
        refine ⟨h1, h2, ?_, h3⟩
        have hext := createPathLoop_extends rest (acc ++ "/" ++ p) c
        unfold Conn.Exists at he ⊢
        rw [h2]
        simp only [hc, Bool.true_and] at he ⊢
        cases hg : c.nodes.get (acc ++ "/" ++ p) with
        | none => simp [hg] at he
        | some n => simp [hext.2 _ n hg]
      · have he1 : c.Exists (acc ++ "/" ++ p) = false := by
          cases hx : c.Exists (acc ++ "/" ++ p) with
          | true => exact absurd hx he
          | false => rfl
        have hget : c.nodes.get (acc ++ "/" ++ p) = none := by
          unfold Conn.Exists at he1
          simp only [hc, Bool.true_and] at he1
          cases hg : c.nodes.get (acc ++ "/" ++ p) with
          | none => rfl
          | some n => simp [hg] at he1
        obtain ⟨hfst, hc1, hnode⟩ := Conn.create_fresh c (acc ++ "/" ++ p) "" 0 hc hget
        have hcreate :
            c.Create (acc ++ "/" ++ p) "" 0 = (none, (c.Create (acc ++ "/" ++ p) "" 0).2) :=
          Prod.ext hfst rfl
        generalize (c.Create (acc ++ "/" ++ p) "" 0).2 = c1 at hcreate hc1 hnode
        rw [he1, hcreate]
        simp only [Bool.false_eq_true, if_false]
        obtain ⟨h1, h2, h3⟩ := ih (acc ++ "/" ++ p) c1 hc1
        refine ⟨h1, h2, ?_, h3⟩
        have hext := createPathLoop_extends rest (acc ++ "/" ++ p) c1
        unfold Conn.Exists
        rw [h2]
        simp only [Bool.true_and]
        cases hg : c1.nodes.get (acc ++ "/" ++ p) with
        | none => simp [hg] at hnode
        | some n => simp [hext.2 _ n hg]

/-- When every prefix already exists on a live session, the loop of
`createPath` issues no request and returns `nil` with the state unchanged. -/
theorem createPathLoop_noop (parts : List String) :
    ∀ (acc : String) (c : Conn), c.connected = true →
      (∀ p ∈ prefixesFrom acc (parts.filter fun p => decide (p ≠ "")), c.Exists p = true) →
      createPathLoop parts acc c = (none, c) := by
  induction parts with
  | nil => intro acc c _ _; rfl
  | cons p rest ih =>
    intro acc c hc hall
    unfold createPathLoop
    by_cases hp : p = ""
    · simp only [hp, if_true]
      apply ih acc c hc
      simpa [List.filter, hp] using hall
    · simp only [hp, if_false]
      have hfil :
          ((p :: rest).filter fun p => decide (p ≠ "")) =
            p :: rest.filter fun p => decide (p ≠ "") := by
        simp [List.filter, hp]
      rw [hfil] at hall
      simp only [prefixesFrom, List.mem_cons, forall_eq_or_imp] at hall
      simp only [hall.1, if_true]
      exact ih _ c hc hall.2


theorem stringsSplit_eq_splitOn (path : String) :
    stringsSplit path = (path.toList.splitOn '/').map String.mk := by
  unfold stringsSplit
  rw [splitChars_eq_splitOn]

/-- The split of `lit ++ x` for a literal `lit` of the form `/d/`. -/
theorem stringsSplit_under (lit d x : String) (hlit : lit = "" ++ "/" ++ d ++ "/")
    (hd : '/' ∉ d.toList) (hx : '/' ∉ x.toList) :
    stringsSplit (lit ++ x) = ["", d, x] := by
  subst hlit
  rw [stringsSplit_append_component _ x hx, stringsSplit_append_component _ d hd]
  rfl

theorem ne_of_stringsSplit_not_mem (L : String) (P : List String)
    (h : stringsSplit L ∉ P.map stringsSplit) : L ∉ P :=
  fun hmem => h (List.mem_map_of_mem stringsSplit hmem)

/-- On a live session the loop of `createPath` fails no request and touches no
path other than the prefixes it walks through. -/
theorem createPathLoop_frame (parts : List String) :
    ∀ (acc : String) (c : Conn), c.connected = true →
      (createPathLoop parts acc c).2.failures = c.failures ∧
      (∀ q, q ∉ prefixesFrom acc (parts.filter fun p => decide (p ≠ "")) →
        (createPathLoop parts acc c).2.nodes.get q = c.nodes.get q) := by
  induction parts with
  | nil =>
    intro acc c _
    simp [createPathLoop]
  | cons p rest ih =>
    intro acc c hc
    unfold createPathLoop
    by_cases hp : p = ""
    · simp only [hp, if_true]
      have := ih acc c hc
      simpa [List.filter] using this
    · simp only [hp, if_false]
      have hfil :
          ((p :: rest).filter fun p => decide (p ≠ "")) =
            p :: rest.filter fun p => decide (p ≠ "") := by
        simp [List.filter, hp]
      rw [hfil]
      simp only [prefixesFrom, List.mem_cons, not_or]
      by_cases he : c.Exists (acc ++ "/" ++ p) = true
      · simp only [he, if_true]
        obtain ⟨h1, h2⟩ := ih (acc ++ "/" ++ p) c hc
        exact ⟨h1, fun q hq => h2 q hq.2⟩
      · have he1 : c.Exists (acc ++ "/" ++ p) = false := by
          cases hx : c.Exists (acc ++ "/" ++ p) with
          | true => exact absurd hx he
          | false => rfl
        have hget : c.nodes.get (acc ++ "/" ++ p) = none := by
          unfold Conn.Exists at he1
          simp only [hc, Bool.true_and] at he1
          cases hg : c.nodes.get (acc ++ "/" ++ p) with
          | none => rfl
          | some n => simp [hg] at he1
        have hcreate :
            c.Create (acc ++ "/" ++ p) "" 0 =
              (none,
                { c with
                  nodes := (acc ++ "/" ++ p,
                    { value := "", ephemeral := decide (0 = EPHEMERAL) }) :: c.nodes
                  creates := c.creates + 1 }) := by
          simp [Conn.Create, hc, hget]
        rw [he1, hcreate]
        simp only [Bool.false_eq_true, if_false]
        obtain ⟨h1, h2⟩ := ih (acc ++ "/" ++ p)
          { c with
            nodes := (acc ++ "/" ++ p,
              { value := "", ephemeral := decide (0 = EPHEMERAL) }) :: c.nodes
            creates := c.creates + 1 } hc
        refine ⟨h1, ?_⟩
        intro q hq
        rw [h2 q hq.2]
        have hne : ¬ acc ++ "/" ++ p = q := fun h => hq.1 h.symm
        simp [Entries.get, hne]

theorem Conn.reaches_refl (c : Conn) (hc : c.connected = true) : c.Reaches c [] :=
  ⟨hc, rfl, fun _ _ => rfl⟩

theorem Conn.reaches_createPath {c x : Conn} {P : List String} (h : c.Reaches x P)
    (path : String) (Q : List String)
    (hQ : prefixesFrom "" ((stringsSplit path).filter fun p => decide (p ≠ "")) = Q) :
    c.Reaches (createPath x path).2 (Q ++ P) := by
  obtain ⟨h1, h2, h3⟩ := h
  obtain ⟨_, g2, _⟩ := createPathLoop_connected (stringsSplit path) "" x h1
  obtain ⟨f1, f2⟩ := createPathLoop_frame (stringsSplit path) "" x h1
  refine ⟨g2, f1.trans h2, ?_⟩
  intro q hq
  simp only [List.mem_append, not_or] at hq
  rw [← h3 q hq.2]
  exact f2 q (hQ ▸ hq.1)

theorem Conn.reaches_create {c x : Conn} {P : List String} (h : c.Reaches x P)
    (path value : String) (flags : Nat) (habs : c.nodes.get path = none)
    (hP : path ∉ P) :
    c.Reaches (x.Create path value flags).2 (path :: P) := by
  obtain ⟨h1, h2, h3⟩ := h
  have hx : x.nodes.get path = none := by rw [h3 path hP]; exact habs
  have hcreate :
      x.Create path value flags =
        (none,
          { x with
            nodes := (path, { value := value, ephemeral := decide (flags = EPHEMERAL) }) ::
              x.nodes
            creates := x.creates + 1 }) := by
    simp [Conn.Create, h1, hx]
  rw [hcreate]
  refine ⟨h1, h2, ?_⟩
  intro q hq
  simp only [List.mem_cons, not_or] at hq
  have hne : ¬ path = q := fun h => hq.1 h.symm
  simp only [Entries.get, hne, if_false]
  exact h3 q hq.2

/-- C10.  On a live session, on which requests to create succeed, `createPath`
returns `nil`; afterwards every prefix `/c1`, `/c1/c2`, ... built from the
non-empty components of the path between slashes exists, and every node that
was there before is still there with its value; a second `createPath` of the
same path on the resulting state returns `nil` and leaves the whole state as it
is, the count of `Create` requests included. -/
theorem createPath_mkdir_p (c : Conn) (path : String) (hc : c.connected = true) :
    (createPath c path).1 = none ∧
    (∀ p ∈ pathPrefixes path, (createPath c path).2.Exists p = true) ∧
    (∀ p n, c.nodes.get p = some n → (createPath c path).2.nodes.get p = some n) ∧
    createPath (createPath c path).2 path = (none, (createPath c path).2) := by
  obtain ⟨h1, h2, h3⟩ := createPathLoop_connected (stringsSplit path) "" c hc
  have hpre :
      pathPrefixes path =
        prefixesFrom "" ((stringsSplit path).filter fun p => decide (p ≠ "")) := by
    unfold pathPrefixes
    rw [stringsSplit_eq_splitOn]
  refine ⟨h1, ?_, (createPath_extends c path).2, ?_⟩
  · intro p hp
    exact h3 p (hpre ▸ hp)
  · exact createPathLoop_noop (stringsSplit path) "" _ h2 h3

/-- Witness for C10: the path `/services/svc/1.0` on a live store holding only
the node `/services`: afterwards `/services`, `/services/svc` and
`/services/svc/1.0` exist, the node `/services` keeps its value, two requests
were issued, and a second call changes nothing. -/
theorem createPath_mkdir_p_witness :
    servicesConn.connected = true ∧
    (createPath servicesConn "/services/svc/1.0").1 = none ∧
    (createPath servicesConn "/services/svc/1.0").2.Exists "/services" = true ∧
    (createPath servicesConn "/services/svc/1.0").2.Exists "/services/svc" = true ∧
    (createPath servicesConn "/services/svc/1.0").2.Exists "/services/svc/1.0" = true ∧
    (createPath servicesConn "/services/svc/1.0").2.nodes.get "/services" =
      some { value := "registry", ephemeral := false } ∧
    (createPath servicesConn "/services/svc/1.0").2.creates = 2 ∧
    createPath (createPath servicesConn "/services/svc/1.0").2 "/services/svc/1.0" =
      (none, (createPath servicesConn "/services/svc/1.0").2) :=
  ⟨rfl,
    (createPath_mkdir_p servicesConn "/services/svc/1.0" rfl).1,
    (createPath_mkdir_p servicesConn "/services/svc/1.0" rfl).2.1 "/services" (by decide),
    (createPath_mkdir_p servicesConn "/services/svc/1.0" rfl).2.1 "/services/svc" (by decide),
    (createPath_mkdir_p servicesConn "/services/svc/1.0" rfl).2.1 "/services/svc/1.0"
      (by decide),
    (createPath_mkdir_p servicesConn "/services/svc/1.0" rfl).2.2.1 "/services" _ rfl,
    by decide,
    (createPath_mkdir_p servicesConn "/services/svc/1.0" rfl).2.2.2⟩

/-- A node stored by a `Create` request between the states `c0` and `final` is
in `final` when no request failed from `c0` to `final`. -/
theorem Conn.create_persists (c0 x final : Conn) (path value : String) (flags : Nat)
    (h0 : c0.Extends x) (h1 : (x.Create path value flags).2.Extends final)
    (hf : final.failures = c0.failures) :
    final.nodes.get path =
      some { value := value, ephemeral := decide (flags = EPHEMERAL) } := by
  have hx := Conn.create_extends x path value flags
  have heq : (x.Create path value flags).2.failures = x.failures := by
    have a1 := h0.1
    have a2 := hx.1
    have a3 := h1.1
    omega
  exact h1.2 _ _ (Conn.create_ok x path value flags heq)

/-- When no `Create` request that `Add` issues fails, the store afterwards holds
each leaf of the layout as an ephemeral node with its value, and every node it
held before is still there unchanged. -/
theorem layout_of_no_failure (c : Conn) (s : ServiceInfo)
    (hok : (Add c s).failures = c.failures) :
    (∀ e ∈ registrationLeaves s,
      (Add c s).nodes.get e.1 = some { value := e.2, ephemeral := true }) ∧
    (∀ p n, c.nodes.get p = some n → (Add c s).nodes.get p = some n) := by
  have e1 := createPath_extends c ("/instances/" ++ s.UUID)
  generalize hA1 : (createPath c ("/instances/" ++ s.UUID)).2 = a1 at e1
  have e2 := Conn.create_extends a1 ("/instances/" ++ s.UUID ++ "/registered") "0" EPHEMERAL
  generalize hA2 :
    (a1.Create ("/instances/" ++ s.UUID ++ "/registered") "0" EPHEMERAL).2 = a2 at e2
  have e3 := Conn.create_extends a2 ("/instances/" ++ s.UUID ++ "/addr")
    s.ServiceAddr.String EPHEMERAL
  generalize hA3 :
    (a2.Create ("/instances/" ++ s.UUID ++ "/addr") s.ServiceAddr.String EPHEMERAL).2 = a3
    at e3
  have e4 := Conn.create_extends a3 ("/instances/" ++ s.UUID ++ "/name") s.Name EPHEMERAL
  generalize hA4 : (a3.Create ("/instances/" ++ s.UUID ++ "/name") s.Name EPHEMERAL).2 = a4
    at e4
  have e5 := Conn.create_extends a4 ("/instances/" ++ s.UUID ++ "/version") s.Version
    EPHEMERAL
  generalize hA5 :
    (a4.Create ("/instances/" ++ s.UUID ++ "/version") s.Version EPHEMERAL).2 = a5 at e5
  have e6 := Conn.create_extends a5 ("/instances/" ++ s.UUID ++ "/region") s.Region EPHEMERAL
  generalize hA6 :
    (a5.Create ("/instances/" ++ s.UUID ++ "/region") s.Region EPHEMERAL).2 = a6 at e6
  have e7 := createPath_extends a6 ("/regions/" ++ s.Region)
  generalize hB1 : (createPath a6 ("/regions/" ++ s.Region)).2 = b1 at e7
  have e8 := Conn.create_extends b1 ("/regions/" ++ s.Region ++ "/" ++ s.UUID) "" EPHEMERAL
  generalize hB2 :
    (b1.Create ("/regions/" ++ s.Region ++ "/" ++ s.UUID) "" EPHEMERAL).2 = b2 at e8
  have e9 := createPath_extends b2 ("/services/" ++ s.Name ++ "/" ++ s.Version)
  generalize hB3 : (createPath b2 ("/services/" ++ s.Name ++ "/" ++ s.Version)).2 = b3 at e9
  have e10 := Conn.create_extends b3 ("/services/" ++ s.Name ++ "/" ++ s.UUID) "" EPHEMERAL
  generalize hB4 :
    (b3.Create ("/services/" ++ s.Name ++ "/" ++ s.UUID) "" EPHEMERAL).2 = b4 at e10
  have e11 := Conn.create_extends b4
    ("/services/" ++ s.Name ++ "/" ++ s.Version ++ "/" ++ s.UUID) "" EPHEMERAL
  generalize hB5 :
    (b4.Create ("/services/" ++ s.Name ++ "/" ++ s.Version ++ "/" ++ s.UUID) ""
      EPHEMERAL).2 = b5 at e11
  have e12 := createPath_extends b5 ("/hosts/" ++ s.ServiceAddr.IPAddress)
  generalize hB6 : (createPath b5 ("/hosts/" ++ s.ServiceAddr.IPAddress)).2 = b6 at e12
  have e13 := Conn.create_extends b6
    ("/hosts/" ++ s.ServiceAddr.IPAddress ++ "/" ++ s.UUID) "" EPHEMERAL
  generalize hB7 :
    (b6.Create ("/hosts/" ++ s.ServiceAddr.IPAddress ++ "/" ++ s.UUID) "" EPHEMERAL).2 = b7
    at e13
  have hAdd : Add c s = b7 := by
    simp only [Add, addService, createPaths, hA1, hA2, hA3, hA4, hA5, hA6, hB1, hB2, hB3,
      hB4, hB5, hB6, hB7]
  rw [hAdd] at hok ⊢
  have t13 := e13
  have t12 := Conn.extends_trans e12 t13
  have t11 := Conn.extends_trans e11 t12
  have t10 := Conn.extends_trans e10 t11
  have t9 := Conn.extends_trans e9 t10
  have t8 := Conn.extends_trans e8 t9
  have t7 := Conn.extends_trans e7 t8
  have t6 := Conn.extends_trans e6 t7
  have t5 := Conn.extends_trans e5 t6
  have t4 := Conn.extends_trans e4 t5
  have t3 := Conn.extends_trans e3 t4
  have t2 := Conn.extends_trans e2 t3
  have t1 := Conn.extends_trans e1 t2
  have s1 := e1
  have s2 := Conn.extends_trans s1 e2
  have s3 := Conn.extends_trans s2 e3
  have s4 := Conn.extends_trans s3 e4
  have s5 := Conn.extends_trans s4 e5
  have s6 := Conn.extends_trans s5 e6
  have s7 := Conn.extends_trans s6 e7
  have s8 := Conn.extends_trans s7 e8
  have s9 := Conn.extends_trans s8 e9
  have s10 := Conn.extends_trans s9 e10
  have s11 := Conn.extends_trans s10 e11
  have s12 := Conn.extends_trans s11 e12
  have hflag : decide (EPHEMERAL = EPHEMERAL) = true := by decide
  refine ⟨?_, t1.2⟩
  intro e he
  simp only [registrationLeaves, List.mem_cons, List.mem_singleton, List.not_mem_nil,
    or_false] at he
  rcases he with he | he | he | he | he | he | he | he | he <;> subst he <;> simp only
  · have h := Conn.create_persists c a1 b7 _ "0" EPHEMERAL s1 (hA2 ▸ t3) hok
    rw [hflag] at h; exact h
  · have h := Conn.create_persists c a2 b7 _ s.ServiceAddr.String EPHEMERAL s2 (hA3 ▸ t4) hok
    rw [hflag] at h; exact h
  · have h := Conn.create_persists c a3 b7 _ s.Name EPHEMERAL s3 (hA4 ▸ t5) hok
    rw [hflag] at h; exact h
  · have h := Conn.create_persists c a4 b7 _ s.Version EPHEMERAL s4 (hA5 ▸ t6) hok
    rw [hflag] at h; exact h
  · have h := Conn.create_persists c a5 b7 _ s.Region EPHEMERAL s5 (hA6 ▸ t7) hok
    rw [hflag] at h; exact h
  · have h := Conn.create_persists c b1 b7 _ "" EPHEMERAL s7 (hB2 ▸ t9) hok
    rw [hflag] at h; exact h
  · have h := Conn.create_persists c b3 b7 _ "" EPHEMERAL s9 (hB4 ▸ t11) hok
    rw [hflag] at h; exact h
  · have h := Conn.create_persists c b4 b7 _ "" EPHEMERAL s10 (hB5 ▸ t12) hok
    rw [hflag] at h; exact h
  · have h := Conn.create_persists c b6 b7 _ "" EPHEMERAL s12
      (by rw [hB7]; exact Conn.extends_refl b7) hok
    rw [hflag] at h; exact h

/-- On a live session, for a descriptor with fields non-empty and free of
slashes whose UUID differs from its version, and a store holding no leaf of its
layout, no `Create` request that `Add` issues fails. -/
theorem Add_no_failure (c : Conn) (s : ServiceInfo)
    (hfields : ∀ f ∈ [s.UUID, s.Name, s.Version, s.Region, s.ServiceAddr.IPAddress],
      f ≠ "" ∧ '/' ∉ f.toList)
    (hconn : c.connected = true)
    (habsent : ∀ e ∈ registrationLeaves s, c.nodes.get e.1 = none)
    (hne : s.UUID ≠ s.Version) :
    (Add c s).failures = c.failures := by
  obtain ⟨u, n, r, v, ⟨ip, port⟩⟩ := s
  simp only [List.mem_cons, List.mem_singleton, List.not_mem_nil, or_false,
    forall_eq_or_imp, forall_eq] at hfields
  obtain ⟨⟨hu0, hu⟩, ⟨hn0, hn⟩, ⟨hv0, hv⟩, ⟨hr0, hr⟩, ⟨hi0, hi⟩⟩ := hfields
  simp only at hu0 hu hn0 hn hv0 hv hr0 hr hi0 hi hne
  simp only [registrationLeaves, List.mem_cons, List.mem_singleton, List.not_mem_nil,
    or_false, forall_eq_or_imp, forall_eq] at habsent
  obtain ⟨a1, a2, a3, a4, a5, a6, a7, a8, a9⟩ := habsent
  -- the components of every path that `Add` touches
  have sI : stringsSplit "/instances" = ["", "instances"] := by decide
  have sR : stringsSplit "/regions" = ["", "regions"] := by decide
  have sS : stringsSplit "/services" = ["", "services"] := by decide
  have sH : stringsSplit "/hosts" = ["", "hosts"] := by decide
  have sA1 : stringsSplit ("/instances/" ++ u) = ["", "instances", u] :=
    stringsSplit_under _ "instances" u rfl (by decide) hu
  have sA2 : stringsSplit ("/regions/" ++ r) = ["", "regions", r] :=
    stringsSplit_under _ "regions" r rfl (by decide) hr
  have sA3 : stringsSplit ("/services/" ++ n) = ["", "services", n] :=
    stringsSplit_under _ "services" n rfl (by decide) hn
  have sA4 : stringsSplit ("/services/" ++ n ++ "/" ++ v) = ["", "services", n, v] := by
    rw [stringsSplit_append_component _ v hv, sA3]; rfl
  have sA5 : stringsSplit ("/hosts/" ++ ip) = ["", "hosts", ip] :=
    stringsSplit_under _ "hosts" ip rfl (by decide) hi
  have sL1 : stringsSplit ("/instances/" ++ u ++ "/registered") =
      ["", "instances", u, "registered"] := by
    rw [stringsSplit_append_literal _ "/registered" "registered" rfl (by decide), sA1]; rfl
  have sL2 : stringsSplit ("/instances/" ++ u ++ "/addr") = ["", "instances", u, "addr"] := by
    rw [stringsSplit_append_literal _ "/addr" "addr" rfl (by decide), sA1]; rfl
  have sL3 : stringsSplit ("/instances/" ++ u ++ "/name") = ["", "instances", u, "name"] := by
    rw [stringsSplit_append_literal _ "/name" "name" rfl (by decide), sA1]; rfl
  have sL4 : stringsSplit ("/instances/" ++ u ++ "/version") =
      ["", "instances", u, "version"] := by
    rw [stringsSplit_append_literal _ "/version" "version" rfl (by decide), sA1]; rfl
  have sL5 : stringsSplit ("/instances/" ++ u ++ "/region") =
      ["", "instances", u, "region"] := by
    rw [stringsSplit_append_literal _ "/region" "region" rfl (by decide), sA1]; rfl
  have sL6 : stringsSplit ("/regions/" ++ r ++ "/" ++ u) = ["", "regions", r, u] := by
    rw [stringsSplit_append_component _ u hu, sA2]; rfl
  have sL7 : stringsSplit ("/services/" ++ n ++ "/" ++ u) = ["", "services", n, u] := by
    rw [stringsSplit_append_component _ u hu, sA3]; rfl
  have sL8 : stringsSplit ("/services/" ++ n ++ "/" ++ v ++ "/" ++ u) =
      ["", "services", n, v, u] := by
    rw [stringsSplit_append_component _ u hu, sA4]; rfl
  have sL9 : stringsSplit ("/hosts/" ++ ip ++ "/" ++ u) = ["", "hosts", ip, u] := by
    rw [stringsSplit_append_component _ u hu, sA5]; rfl
  -- the prefixes each `createPath` walks through
  have q1 : prefixesFrom "" ((stringsSplit ("/instances/" ++ u)).filter
      fun p => decide (p ≠ "")) = ["/instances", "/instances/" ++ u] := by
    rw [sA1]; simp only [List.filter, hu0, ne_eq, not_true_eq_false, not_false_eq_true,
      decide_True, decide_False, prefixesFrom]
    rfl
  have q2 : prefixesFrom "" ((stringsSplit ("/regions/" ++ r)).filter
      fun p => decide (p ≠ "")) = ["/regions", "/regions/" ++ r] := by
    rw [sA2]; simp only [List.filter, hr0, ne_eq, not_true_eq_false, not_false_eq_true,
      decide_True, decide_False, prefixesFrom]
    rfl
  have q3 : prefixesFrom "" ((stringsSplit ("/services/" ++ n ++ "/" ++ v)).filter
      fun p => decide (p ≠ "")) =
        ["/services", "/services/" ++ n, "/services/" ++ n ++ "/" ++ v] := by
    rw [sA4]; simp only [List.filter, hn0, hv0, ne_eq, not_true_eq_false, not_false_eq_true,
      decide_True, decide_False, prefixesFrom]
    rfl
  have q4 : prefixesFrom "" ((stringsSplit ("/hosts/" ++ ip)).filter
      fun p => decide (p ≠ "")) = ["/hosts", "/hosts/" ++ ip] := by
    rw [sA5]; simp only [List.filter, hi0, ne_eq, not_true_eq_false, not_false_eq_true,
      decide_True, decide_False, prefixesFrom]
    rfl
  have r0 := Conn.reaches_refl c hconn
  have r1 := Conn.reaches_createPath r0 _ _ q1
  have r2 := Conn.reaches_create r1 ("/instances/" ++ u ++ "/registered") "0" EPHEMERAL a1
    (by
      apply ne_of_stringsSplit_not_mem
      simp only [List.map_cons, List.map_nil, List.cons_append, List.nil_append, sI, sR, sS, sH,
        sA1, sA2, sA3, sA4, sA5, sL1, sL2, sL3, sL4, sL5, sL6, sL7, sL8, sL9]
      simp [hne])
  have r3 := Conn.reaches_create r2 ("/instances/" ++ u ++ "/addr") (BindAddr.String { IPAddress := ip, Port := port }) EPHEMERAL a2
    (by
      apply ne_of_stringsSplit_not_mem
      simp only [List.map_cons, List.map_nil, List.cons_append, List.nil_append, sI, sR, sS, sH,
        sA1, sA2, sA3, sA4, sA5, sL1, sL2, sL3, sL4, sL5, sL6, sL7, sL8, sL9]
      simp [hne])
  have r4 := Conn.reaches_create r3 ("/instances/" ++ u ++ "/name") n EPHEMERAL a3
    (by
      apply ne_of_stringsSplit_not_mem
      simp only [List.map_cons, List.map_nil, List.cons_append, List.nil_append, sI, sR, sS, sH,
        sA1, sA2, sA3, sA4, sA5, sL1, sL2, sL3, sL4, sL5, sL6, sL7, sL8, sL9]
      simp [hne])
  have r5 := Conn.reaches_create r4 ("/instances/" ++ u ++ "/version") v EPHEMERAL a4
    (by
      apply ne_of_stringsSplit_not_mem
      simp only [List.map_cons, List.map_nil, List.cons_append, List.nil_append, sI, sR, sS, sH,
        sA1, sA2, sA3, sA4, sA5, sL1, sL2, sL3, sL4, sL5, sL6, sL7, sL8, sL9]
      simp [hne])
  have r6 := Conn.reaches_create r5 ("/instances/" ++ u ++ "/region") r EPHEMERAL a5
    (by
      apply ne_of_stringsSplit_not_mem
      simp only [List.map_cons, List.map_nil, List.cons_append, List.nil_append, sI, sR, sS, sH,
        sA1, sA2, sA3, sA4, sA5, sL1, sL2, sL3, sL4, sL5, sL6, sL7, sL8, sL9]
      simp [hne])
  have r7 := Conn.reaches_createPath r6 _ _ q2
  have r8 := Conn.reaches_create r7 ("/regions/" ++ r ++ "/" ++ u) "" EPHEMERAL a6
    (by
      apply ne_of_stringsSplit_not_mem
      simp only [List.map_cons, List.map_nil, List.cons_append, List.nil_append, sI, sR, sS, sH,
        sA1, sA2, sA3, sA4, sA5, sL1, sL2, sL3, sL4, sL5, sL6, sL7, sL8, sL9]
      simp [hne])
  have r9 := Conn.reaches_createPath r8 _ _ q3
  have r10 := Conn.reaches_create r9 ("/services/" ++ n ++ "/" ++ u) "" EPHEMERAL a7
    (by
      apply ne_of_stringsSplit_not_mem
      simp only [List.map_cons, List.map_nil, List.cons_append, List.nil_append, sI, sR, sS, sH,
        sA1, sA2, sA3, sA4, sA5, sL1, sL2, sL3, sL4, sL5, sL6, sL7, sL8, sL9]
      simp [hne])
  have r11 := Conn.reaches_create r10 ("/services/" ++ n ++ "/" ++ v ++ "/" ++ u) "" EPHEMERAL a8
    (by
      apply ne_of_stringsSplit_not_mem
      simp only [List.map_cons, List.map_nil, List.cons_append, List.nil_append, sI, sR, sS, sH,
        sA1, sA2, sA3, sA4, sA5, sL1, sL2, sL3, sL4, sL5, sL6, sL7, sL8, sL9]
      simp [hne])
  have r12 := Conn.reaches_createPath r11 _ _ q4
  have r13 := Conn.reaches_create r12 ("/hosts/" ++ ip ++ "/" ++ u) "" EPHEMERAL a9
    (by
      apply ne_of_stringsSplit_not_mem
      simp only [List.map_cons, List.map_nil, List.cons_append, List.nil_append, sI, sR, sS, sH,
        sA1, sA2, sA3, sA4, sA5, sL1, sL2, sL3, sL4, sL5, sL6, sL7, sL8, sL9]
      simp [hne])
  exact r13.2.1

/-- C7, counterexample.  The instance whose UUID and version are both `1.0` has
fields non-empty and free of slashes, and the empty live store holds none of
the leaves of its layout, yet after `Add` the
path `/services/svc/1.0` holds the persistent node that `createPath` made, not
an ephemeral leaf: the `Create` of the leaf found the path taken. -/
theorem Add_same_uuid_and_version :
    (∀ f ∈ [svcSameVersion.UUID, svcSameVersion.Name, svcSameVersion.Version,
        svcSameVersion.Region, svcSameVersion.ServiceAddr.IPAddress],
      f ≠ "" ∧ '/' ∉ f.toList) ∧
    emptyConn.connected = true ∧
    (∀ e ∈ registrationLeaves svcSameVersion, emptyConn.nodes.get e.1 = none) ∧
    ("/services/svc/1.0", "") ∈ registrationLeaves svcSameVersion ∧
    (Add emptyConn svcSameVersion).nodes.get "/services/svc/1.0" =
      some { value := "", ephemeral := false } ∧
    (Add emptyConn svcSameVersion).failures = 1 := by
  decide

/-- C7, amended.  For a descriptor whose UUID, name, version, region and IP
address are non-empty and free of slashes and whose UUID differs from its
version, on a live session (every request to create an absent path succeeds)
and a store holding none of the leaves of its layout: no `Create` request that
`Add` issues fails, after `Add` the store holds each leaf of the layout as an
ephemeral node with its value (the flag `0` under `registered`, the address,
name, version and region, and the empty value under the four index leaves), and
every node the store held before is still there unchanged. -/
theorem Add_layout (c : Conn) (s : ServiceInfo)
    (hfields : ∀ f ∈ [s.UUID, s.Name, s.Version, s.Region, s.ServiceAddr.IPAddress],
      f ≠ "" ∧ '/' ∉ f.toList)
    (hconn : c.connected = true)
    (habsent : ∀ e ∈ registrationLeaves s, c.nodes.get e.1 = none)
    (hne : s.UUID ≠ s.Version) :
    (Add c s).failures = c.failures ∧
    (∀ e ∈ registrationLeaves s,
      (Add c s).nodes.get e.1 = some { value := e.2, ephemeral := true }) ∧
    (∀ p n, c.nodes.get p = some n → (Add c s).nodes.get p = some n) :=
  ⟨Add_no_failure c s hfields hconn habsent hne,
    layout_of_no_failure c s (Add_no_failure c s hfields hconn habsent hne)⟩

/-- Witness for C7: the instance `a` registered on the empty live store. -/
theorem Add_layout_witness :
    ((∀ f ∈ [svcA.UUID, svcA.Name, svcA.Version, svcA.Region, svcA.ServiceAddr.IPAddress],
        f ≠ "" ∧ '/' ∉ f.toList) ∧
      emptyConn.connected = true ∧
      (∀ e ∈ registrationLeaves svcA, emptyConn.nodes.get e.1 = none) ∧
      svcA.UUID ≠ svcA.Version) ∧
    ((Add emptyConn svcA).failures = emptyConn.failures ∧
      (∀ e ∈ registrationLeaves svcA,
        (Add emptyConn svcA).nodes.get e.1 = some { value := e.2, ephemeral := true }) ∧
      (∀ p n, emptyConn.nodes.get p = some n → (Add emptyConn svcA).nodes.get p = some n)) :=
  ⟨⟨by decide, by decide, by decide, by decide⟩,
    Add_layout emptyConn svcA (by decide) (by decide) (by decide) (by decide)⟩

end Zkmanager
